import Mathlib

/-!
Verification of the bertology data-preparation core.

This file gives a shallow embedding of the data-preparation components of the
repository (text normalization from `src/data/b2w.py` and
`src/experiments/cls_b2w_bert.py`, label coercion from
`src/data/b2w.py`, the train/test/validation splitter from `src/util.py`,
and the acquisition stage of the orchestrator), together with theorems about
the embedded definitions. Python strings are modelled as `List Char`, machine
floats appearing as split fractions are modelled as exact rationals, and the
global numpy random generator is modelled by explicit seed threading.
-/

namespace Bertology

/-- Python `str.lower`, modelled on the ASCII and Latin-1 ranges: uppercase
code points 65..90 and 192..222 (excluding the multiplication sign 215) move
up by 32; every other character is unchanged. Characters outside Latin-1 are
left unchanged by the model; the claims below only depend on the behaviour
inside Latin-1 and on the fact that no character lowercases to an uppercase
letter. -/
def pyLower (c : Char) : Char :=
  let n := c.toNat
  if (65 ≤ n ∧ n ≤ 90) ∨ (192 ≤ n ∧ n ≤ 222 ∧ n ≠ 215) then Char.ofNat (n + 32) else c

/-- The whitespace characters stripped by Python `str.strip` (ASCII part). -/
def pyWspace (c : Char) : Bool :=
  c = ' ' || c = '\t' || c = '\n' || c = '\r' || c = '\x0b' || c = '\x0c'

/-- Python `str.strip`: remove leading and trailing whitespace. -/
def pyStrip (s : List Char) : List Char :=
  ((s.dropWhile pyWspace).reverse.dropWhile pyWspace).reverse

/-- Worker for `subRuns`: the Boolean argument records whether the previous
character was part of a run of `p`-characters (in which case the current run
has already emitted its replacement). -/
def subRunsGo (p : Char → Bool) (rep : List Char) : Bool → List Char → List Char
  | _, [] => []
  | inRun, c :: cs =>
      if p c then (if inRun then [] else rep) ++ subRunsGo p rep true cs
      else c :: subRunsGo p rep false cs

/-- `re.sub` for a pattern of the shape `[class]+` with a fixed replacement:
every maximal run of characters satisfying `p` is replaced by `rep`. This is
the common shape of the digit-run substitution `\d+` -> `NUM` and of the final
run-collapse substitution in the sources. -/
def subRuns (p : Char → Bool) (rep : List Char) (s : List Char) : List Char :=
  subRunsGo p rep false s

/-- The literal replacement token `NUM` used by the digit substitution. -/
def numTok : List Char := ['N', 'U', 'M']

/-- `re.sub(r"NUM[.,]NUM", "NUM", s)`: scanning left to right, each
non-overlapping occurrence of `NUM` separator `NUM` (separator a period or a
comma) is replaced by `NUM`; scanning resumes after the consumed occurrence,
and replacements are not rescanned. -/
def collapseGo : Nat → List Char → List Char
  | 0, s => s
  | _ + 1, [] => []
  | fuel + 1, 'N' :: 'U' :: 'M' :: c :: 'N' :: 'U' :: 'M' :: rest =>
      if c = '.' ∨ c = ',' then
        'N' :: 'U' :: 'M' :: collapseGo fuel rest
      else
        'N' :: collapseGo fuel ('U' :: 'M' :: c :: 'N' :: 'U' :: 'M' :: rest)
  | fuel + 1, c :: rest => c :: collapseGo fuel rest

/-- `re.sub(r"NUM[.,]NUM", "NUM", s)` at top level: the fuel argument of the
worker (structurally consumed so that the kernel can evaluate the function)
starts at the length of the string, which `collapseGo` never exhausts since
every step consumes at least one character. -/
def collapseNumSep (s : List Char) : List Char := collapseGo s.length s

/-- `re.sub(r"([?.!,...])", r" \1 ", s)` for a single-character class `cls`:
each character of the class is replaced by itself surrounded by one space on
each side. -/
def spacePunct (cls : Char → Bool) (s : List Char) : List Char :=
  (s.map (fun c => if cls c then [' ', c, ' '] else [c])).flatten

/-- The punctuation class written in `src/data/b2w.py`: the regex source reads
`([?.!,Â¿])`, a class of the six characters `?`, `.`, `!`, `,`, `Â`, `¿`
(the `Â` comes from a mojibake encoding of the inverted question mark). -/
def puncB2W (c : Char) : Bool :=
  c = '?' || c = '.' || c = '!' || c = ',' || c = 'Â' || c = '¿'

/-- The punctuation class written in `src/experiments/cls_b2w_bert.py`: the
regex source reads `([?.!,¿])`, a class of the five characters
`?`, `.`, `!`, `,`, `¿`. -/
def puncExpt (c : Char) : Bool :=
  c = '?' || c = '.' || c = '!' || c = ',' || c = '¿'

/-- The character class of the final substitution `re.sub(r'[" "]+', " ", s)`
in both sources: the class written between the brackets consists of the
double-quote character and the space character (the quote is repeated). -/
def spaceQuote (c : Char) : Bool := c = ' ' || c = '"'

/-- The per-string normalization pipeline shared by `cls_dataprep` in
`src/data/b2w.py` and `text_tranformation` in
`src/experiments/cls_b2w_bert.py`, parametrized by the punctuation class in
which the two sources differ: lowercase and strip, replace digit runs by
`NUM`, collapse `NUM[.,]NUM`, space out punctuation, collapse runs of
space-or-quote characters. -/
def normalizeWith (cls : Char → Bool) (s : List Char) : List Char :=
  subRuns spaceQuote [' ']
    (spacePunct cls
      (collapseNumSep
        (subRuns Char.isDigit numTok
          (pyStrip (s.map pyLower)))))

/-- The text transformation applied per row by `cls_dataprep`
in `src/data/b2w.py` (lines 106..119). -/
def cls_dataprep_text (s : List Char) : List Char := normalizeWith puncB2W s

/-- The text transformation applied per row by `text_tranformation` in
`src/experiments/cls_b2w_bert.py` (lines 74..86). -/
def text_tranformation_text (s : List Char) : List Char := normalizeWith puncExpt s

/-- Modelled from the spec: step 5 of the normalization as the spec words it,
replacing every maximal run of one or more whitespace characters (spaces,
tabs, newlines) with a single space. -/
def specWsStep (s : List Char) : List Char := subRuns pyWspace [' '] s

/-- Maximal-run collapse written directly from the run-by-run wording of the
amended whitespace claim, in a different recursion style from the
implementation: scanning left to right, a character of the class `p` opens a
maximal run, the whole run (this character and the following class
characters) becomes a single space and scanning resumes past the run, while
a character outside the class is copied unchanged. -/
def collapseRunsSpec (p : Char → Bool) : List Char → List Char
  | [] => []
  | c :: cs =>
      if p c then ' ' :: collapseRunsSpec p (cs.dropWhile p)
      else c :: collapseRunsSpec p cs
termination_by s => s.length
decreasing_by
  · exact Nat.lt_succ_of_le (List.dropWhile_sublist _).length_le
  · exact Nat.lt_succ_self _

/-- A Python value as it appears in the `target` column: a missing value
(pandas NaN or None), a string, or a number. -/
inductive PyVal where
  | vNone : PyVal
  | vStr : List Char → PyVal
  | vInt : Int → PyVal
deriving DecidableEq

/-- The label coercion of `get_recommendation_data` in `src/data/b2w.py`
(lines 78..80): two sequential apply calls, the first mapping a value equal to
the string Yes to 1, the second mapping a value equal to the string No to 0;
every other value is returned unchanged. -/
def coerce_target (t : PyVal) : PyVal :=
  let t1 := if t = PyVal.vStr (("Yes").data) then PyVal.vInt 1 else t
  if t1 = PyVal.vStr (("No").data) then PyVal.vInt 0 else t1

/-- A dataframe row for the classification pipelines: a text field and a
target field. The claims about the normalization pipelines quantify over
dataframes whose text column holds strings, so the text field is a string. -/
structure Row where
  text : List Char
  target : PyVal
deriving DecidableEq

/-- `DataFrame.dropna(inplace=True)` on a dataframe whose text column holds
strings: a row is dropped exactly when its target value is missing. -/
def dropnaRows (df : List Row) : List Row :=
  df.filter (fun r => !(r.target = PyVal.vNone))

/-- `cls_dataprep` from `src/data/b2w.py` (lines 85..121): optionally drop
rows with missing values, then apply the text normalization to the text
column. -/
def cls_dataprep (drop_na : Bool) (df : List Row) : List Row :=
  let df1 := if drop_na then dropnaRows df else df
  df1.map (fun r => { r with text := cls_dataprep_text r.text })

/-- `text_tranformation` from `src/experiments/cls_b2w_bert.py`
(lines 54..88): drop rows with missing values, then apply the text
normalization to the text column. The function name keeps the spelling of the
source. -/
def text_tranformation (df : List Row) : List Row :=
  (dropnaRows df).map (fun r => { r with text := text_tranformation_text r.text })

/-- Python `int()` applied to a real number: truncation toward zero, written
with the executable floor and ceiling on `ℚ` so that the kernel can evaluate
it. -/
def pyInt (q : ℚ) : Int := if 0 ≤ q then q.floor else q.ceil

/-- A numpy slice boundary: a negative index counts from the end of the array
and indices are clamped to the array length. -/
def sliceIdx (n : Nat) (i : Int) : Nat :=
  if i < 0 then ((n : Int) + i).toNat else min i.toNat n

/-- `data.loc[index_list]` on a dataframe modelled as a list of
(index, row) pairs: for each requested label, the first row carrying that
label. -/
def loc {α : Type} (df : List (Nat × α)) (idxs : List Nat) : List (Nat × α) :=
  idxs.filterMap (fun i => df.find? (fun p => p.1 == i))

/-- `datasplit` from `src/util.py` (lines 8..59). The dataframe is a list of
(index, row) pairs; the shuffling performed by `np.random.shuffle` on the
index array is a function argument. If the three sizes sum to more than 1 the
function fails with the ValueError message of the source; otherwise the
shuffled index array is split at `int(len * train_size)` and
`int(len * (train_size + test_size))` as `np.split` does, and the three index
ranges are resolved to rows with `loc`. -/
def datasplit {α : Type} (df : List (Nat × α)) (shuffle : List Nat → List Nat)
    (train_size test_size val_size : ℚ) :
    Except (List Char) (List (Nat × α) × List (Nat × α) × List (Nat × α)) :=
  if train_size + test_size + val_size > 1 then
    Except.error (("Split size sum must be less or equal 1.").data)
  else
    let indexes := shuffle (df.map Prod.fst)
    let n := indexes.length
    let b1 := sliceIdx n (pyInt ((n : ℚ) * train_size))
    let b2 := sliceIdx n (pyInt ((n : ℚ) * (train_size + test_size)))
    Except.ok (loc df (indexes.take b1),
               loc df ((indexes.take b2).drop b1),
               loc df (indexes.drop b2))

/-- One step of a linear congruential generator, standing in for the numpy
global Mersenne Twister: a deterministic function of the generator state. -/
def lcgNext (g : Nat) : Nat := (1103515245 * g + 12345) % 2147483648

/-- Worker for `seededShuffle`: Fisher-Yates style selection shuffle. At each
step the generator advances, a position of the remaining list is selected,
and the selected element is moved to the front of the output. The fuel is
structurally consumed and starts at the list length, which is never
exhausted since every step removes one element. -/
def shuffleGo {α : Type} : Nat → Nat → List α → List α
  | 0, _, l => l
  | _ + 1, _, [] => []
  | fuel + 1, g, a :: as =>
      let g1 := lcgNext g
      let j := g1 % (as.length + 1)
      (a :: as).getD j a :: shuffleGo fuel g1 ((a :: as).eraseIdx j)

/-- The numpy global random generator seeded at `seed` and used to shuffle a
list, modelled as a deterministic seeded shuffle. -/
def seededShuffle {α : Type} (seed : Nat) (l : List α) : List α :=
  shuffleGo l.length seed l

/-- `datasplit` as invoked after seeding the numpy global generator: the
shuffle applied to the index array is the deterministic shuffle of the seeded
generator, so the seed is the only state the split depends on besides its
arguments. -/
def datasplitSeeded {α : Type} (seed : Nat) (df : List (Nat × α))
    (train_size test_size val_size : ℚ) :
    Except (List Char) (List (Nat × α) × List (Nat × α) × List (Nat × α)) :=
  datasplit df (seededShuffle seed) train_size test_size val_size

/-- Modelled from the spec: `gcp_util.exists_on_storage`, called by the
orchestrator at `src/experiments/cls_b2w_bert.py` line 130, is absent from
the sources; the spec describes the storage collaborator as an existence
predicate over paths. Storage is modelled as a partial map from paths to
blob contents, and the predicate reports whether the path is bound. -/
def exists_on_storage {β : Type} (storage : Nat → Option β) (path : Nat) : Bool :=
  (storage path).isSome

/-- The acquisition stage of `dataprep` in `src/experiments/cls_b2w_bert.py`
(lines 129..135): if the destination already exists on storage the fetch is
skipped, otherwise `b2w.download_csv` writes the fetched blob to the
destination. The result pairs the storage state after the stage with the
number of calls made to the fetch operation. -/
def acquireStage {β : Type} (storage : Nat → Option β) (path : Nat)
    (fetched : β) : (Nat → Option β) × Nat :=
  if exists_on_storage storage path then
    (storage, 0)
  else
    ((fun p => if p = path then some fetched else storage p), 1)

/-- A concrete dataset of 100 rows with the default positional index, used to
check the split-size example of the spec. -/
def df100 : List (Nat × Nat) := (List.range 100).map (fun i => (i, i))

deriving instance DecidableEq for Except

/-- C2: for every dataset and every sizes triple whose sum exceeds 1,
`datasplit` fails with the invalid-split-size error, and the result does not
depend on the shuffling function: the error is raised before any permutation
is performed, and in this pure embedding the input dataset is returned
untouched in no output, hence unchanged. -/
theorem C2_datasplit_invalid {α : Type} (df : List (Nat × α))
    (sh1 sh2 : List Nat → List Nat) (tr te va : ℚ)
    (h : tr + te + va > 1) :
    datasplit df sh1 tr te va
        = Except.error (("Split size sum must be less or equal 1.").data) ∧
    datasplit df sh1 tr te va = datasplit df sh2 tr te va := by
  constructor
  · unfold datasplit
    rw [if_pos h]
  · unfold datasplit
    rw [if_pos h, if_pos h]

/-- Witness for C2 at the sizes of the spec example, `(0.6, 0.5, 0.0)` with
sum `1.1 > 1`, under two distinct shuffling functions. -/
theorem C2_witness :
    datasplit ([((0 : Nat), (0 : Nat)), (1, 1)]) id (3/5) (1/2) 0
        = Except.error (("Split size sum must be less or equal 1.").data) ∧
    datasplit ([((0 : Nat), (0 : Nat)), (1, 1)]) id (3/5) (1/2) 0
        = datasplit ([((0 : Nat), (0 : Nat)), (1, 1)]) List.reverse (3/5) (1/2) 0 :=
  C2_datasplit_invalid _ id List.reverse (3/5) (1/2) 0 (by norm_num)

/-- C4 counterexample: the normalization of the b2w source on the string
`I have 2 dogs.` is not the string `i have num dogs .` stated by the claim:
the `NUM` token is substituted after lowercasing and therefore stays
uppercase, and the punctuation spacing leaves a trailing space that nothing
strips. -/
theorem C4_counterexample :
    cls_dataprep_text (("I have 2 dogs.").data) ≠ ("i have num dogs .").data := by
  decide

/-- C4 amended: the normalization of `I have 2 dogs.` is exactly
`i have NUM dogs . ` with an uppercase `NUM` token and one trailing space. -/
theorem C4_normalize_example :
    cls_dataprep_text (("I have 2 dogs.").data) = ("i have NUM dogs . ").data := by
  decide

/-- C5 counterexample: in the normalization of `It costs 3.500,00 today.` the
digit groups do not collapse into a single `NUM` token: splitting the output
on spaces does not yield exactly one `NUM` token, because the single
left-to-right pass of the `NUM[.,]NUM` substitution consumes `NUM.NUM` and
resumes after it, leaving `NUM,NUM` unmatched. -/
theorem C5_counterexample :
    ¬ ((cls_dataprep_text (("It costs 3.500,00 today.").data)).splitOn ' ').count (("NUM").data)
        = 1 := by
  decide

/-- C5 amended: the normalization of `It costs 3.500,00 today.` is exactly
`it costs NUM , NUM today . `: the first pass collapses `NUM.NUM` only, the
remaining comma is then spaced as punctuation, two `NUM` tokens remain, and
the trailing period is spaced as a standalone token. -/
theorem C5_normalize_example :
    cls_dataprep_text (("It costs 3.500,00 today.").data)
        = ("it costs NUM , NUM today . ").data := by
  decide

/-- C7: the label coercion maps the raw value exactly `Yes` to 1 and exactly
`No` to 0, and leaves every other raw value unchanged. -/
theorem C7_coerce_target_spec :
    coerce_target (PyVal.vStr (("Yes").data)) = PyVal.vInt 1 ∧
    coerce_target (PyVal.vStr (("No").data)) = PyVal.vInt 0 ∧
    ∀ v : PyVal, v ≠ PyVal.vStr (("Yes").data) → v ≠ PyVal.vStr (("No").data) →
      coerce_target v = v := by
  refine ⟨by decide, by decide, ?_⟩
  intro v hy hn
  simp [coerce_target, hy, hn]

/-- Witness for C7: the missing value and the string `Maybe` pass through the
coercion unchanged. -/
theorem C7_witness :
    coerce_target PyVal.vNone = PyVal.vNone ∧
    coerce_target (PyVal.vStr (("Maybe").data)) = PyVal.vStr (("Maybe").data) :=
  ⟨C7_coerce_target_spec.2.2 _ (by decide) (by decide),
   C7_coerce_target_spec.2.2 _ (by decide) (by decide)⟩

/-- C9: when the existence predicate reports that the raw-corpus destination
already exists, the acquisition stage of the pipeline performs zero calls to
the fetch operation and leaves the storage state unchanged. -/
theorem C9_acquire_skips {β : Type} (storage : Nat → Option β) (path : Nat)
    (fetched : β) (h : exists_on_storage storage path = true) :
    acquireStage storage path fetched = (storage, 0) := by
  unfold acquireStage
  rw [if_pos h]

/-- Witness for C9 on a storage state that binds the destination path. -/
theorem C9_witness :
    acquireStage (fun p => if p = 0 then some 7 else none) 0 9
      = ((fun p => if p = 0 then some 7 else none), 0) :=
  C9_acquire_skips _ 0 9 (by decide)

theorem subRunsGo_true_dropWhile (p : Char → Bool) (rep : List Char) :
    ∀ cs : List Char, subRunsGo p rep true cs = subRunsGo p rep false (cs.dropWhile p) := by
  intro cs
  induction cs with
  | nil => rfl
  | cons d ds ih =>
      by_cases hd : p d = true
      · rw [show subRunsGo p rep true (d :: ds) = subRunsGo p rep true ds by
            simp [subRunsGo, hd], ih, List.dropWhile_cons_of_pos hd]
      · rw [List.dropWhile_cons_of_neg hd]
        simp [subRunsGo, hd]

theorem subRuns_eq_collapseRunsSpec (p : Char → Bool) :
    ∀ s : List Char, subRuns p [' '] s = collapseRunsSpec p s := by
  intro s
  unfold subRuns
  induction s using collapseRunsSpec.induct p with
  | case1 => simp [subRunsGo, collapseRunsSpec]
  | case2 c cs hp ih =>
      rw [show subRunsGo p [' '] false (c :: cs) = ' ' :: subRunsGo p [' '] true cs by
          simp [subRunsGo, hp]]
      rw [subRunsGo_true_dropWhile, ih]
      rw [show collapseRunsSpec p (c :: cs) = ' ' :: collapseRunsSpec p (cs.dropWhile p) by
          simp [collapseRunsSpec, hp]]
  | case3 c cs hp ih =>
      rw [show subRunsGo p [' '] false (c :: cs) = c :: subRunsGo p [' '] false cs by
          simp [subRunsGo, hp]]
      rw [ih]
      rw [show collapseRunsSpec p (c :: cs) = c :: collapseRunsSpec p cs by
          simp [collapseRunsSpec, hp]]

/-- C6 counterexample: the final substitution of the source is not the
whitespace collapse stated by the claim: its character class is the space and
the double-quote, so on a string containing a tab the tab is left unchanged
while the claimed step would replace it with a space. -/
theorem C6_counterexample :
    subRuns spaceQuote [' '] (['a', '\t', 'b']) ≠ specWsStep (['a', '\t', 'b']) := by
  decide

/-- C6 amended: for every input string, the final normalization step replaces
every maximal run of one or more characters from the two-character class of
space and double-quote with a single space, and replaces nothing else: on
every string it coincides with the run-by-run collapse specification
`collapseRunsSpec`, which turns each maximal class run into one space and
copies every other character unchanged. -/
theorem C6_collapse_runs :
    ∀ s : List Char, subRuns spaceQuote [' '] s = collapseRunsSpec spaceQuote s :=
  subRuns_eq_collapseRunsSpec spaceQuote

theorem getD_cons_eraseIdx_perm {α : Type} (d : α) :
    ∀ (l : List α) (j : Nat), j < l.length → List.Perm (l.getD j d :: l.eraseIdx j) l := by
  intro l
  induction l with
  | nil =>
      intro j hj
      simp at hj
  | cons a as ih =>
      intro j hj
      cases j with
      | zero =>
          rw [List.getD_cons_zero, List.eraseIdx_cons_zero]
      | succ j =>
          have hj' : j < as.length := by
            simp only [List.length_cons] at hj
            omega
          rw [List.getD_cons_succ, List.eraseIdx_cons_succ]
          exact (List.Perm.swap a (as.getD j d) _).trans ((ih j hj').cons a)

theorem shuffleGo_perm {α : Type} :
    ∀ (fuel g : Nat) (l : List α), l.length ≤ fuel →
      List.Perm (shuffleGo fuel g l) l := by
  intro fuel
  induction fuel with
  | zero =>
      intro g l _
      exact List.Perm.refl _
  | succ fuel ih =>
      intro g l h
      cases l with
      | nil => exact List.Perm.refl _
      | cons a as =>
          simp only [List.length_cons] at h
          have hj : lcgNext g % (as.length + 1) < (a :: as).length := by
            simp only [List.length_cons]
            exact Nat.mod_lt _ (Nat.succ_pos _)
          have hlen : ((a :: as).eraseIdx (lcgNext g % (as.length + 1))).length ≤ fuel := by
            rw [List.length_eraseIdx_of_lt hj]
            simp only [List.length_cons]
            omega
          have step : shuffleGo (fuel + 1) g (a :: as)
              = (a :: as).getD (lcgNext g % (as.length + 1)) a ::
                  shuffleGo fuel (lcgNext g)
                    ((a :: as).eraseIdx (lcgNext g % (as.length + 1))) := rfl
          rw [step]
          exact ((ih (lcgNext g) _ hlen).cons _).trans
            (getD_cons_eraseIdx_perm a (a :: as) _ hj)

theorem seededShuffle_perm {α : Type} (seed : Nat) (l : List α) :
    List.Perm (seededShuffle seed l) l :=
  shuffleGo_perm l.length seed l (le_refl _)

/-- C8 amended: the randomness source of the splitter is the module-global
numpy generator: it is seedable (globally, before the call) but not a
parameter of `datasplit`. With the global generator state modelled as an
explicitly threaded seed, the split outcome is a function of the seed, the
dataset and the sizes alone, so two runs with the same fixed seed on the same
input produce identical split assignments; moreover the seeded shuffle really
permutes the index array. -/
theorem C8_datasplit_reproducible {α : Type} (s1 s2 : Nat) (df : List (Nat × α))
    (tr te va : ℚ) (h : s1 = s2) :
    datasplitSeeded s1 df tr te va = datasplitSeeded s2 df tr te va ∧
    List.Perm (seededShuffle s1 (df.map Prod.fst)) (df.map Prod.fst) := by
  subst h
  exact ⟨rfl, seededShuffle_perm _ _⟩

/-- Witness for C8 at seed 42 on a three-row dataset. -/
theorem C8_witness :
    datasplitSeeded 42 ([((0 : Nat), (10 : Nat)), (1, 11), (2, 12)]) (1/2) (1/4) (1/4)
        = datasplitSeeded 42 ([((0 : Nat), (10 : Nat)), (1, 11), (2, 12)]) (1/2) (1/4) (1/4) ∧
    List.Perm (seededShuffle 42 (([((0 : Nat), (10 : Nat)), (1, 11), (2, 12)]).map Prod.fst))
      (([((0 : Nat), (10 : Nat)), (1, 11), (2, 12)]).map Prod.fst) :=
  C8_datasplit_reproducible 42 42 _ (1/2) (1/4) (1/4) rfl

theorem ratFloor_eq_floor (q : ℚ) : q.floor = ⌊q⌋ := by
  rw [Rat.floor_def', Rat.floor_def]

theorem sliceIdx_pyInt_floor (m : Nat) (q : ℚ) (h0 : 0 ≤ q) (h1 : q ≤ (m : ℚ))
    (b : Nat) (hb : (b : Int) = ⌊q⌋) : sliceIdx m (pyInt q) = b := by
  have hq : pyInt q = ⌊q⌋ := by
    unfold pyInt
    rw [if_pos h0, ratFloor_eq_floor]
  have hfl0 : 0 ≤ ⌊q⌋ := Int.floor_nonneg.mpr h0
  have hfln : ⌊q⌋ ≤ (m : Int) := by
    calc ⌊q⌋ ≤ ⌊(m : ℚ)⌋ := Int.floor_le_floor h1
      _ = (m : Int) := Int.floor_natCast m
  unfold sliceIdx
  rw [hq, if_neg (not_lt.mpr hfl0), ← hb, Int.toNat_natCast]
  have hbm : b ≤ m := by
    rw [← hb] at hfln
    exact_mod_cast hfln
  exact min_eq_left hbm

theorem datasplit_take_drop {α : Type} (df : List (Nat × α))
    (shuffle : List Nat → List Nat) (tr te va : ℚ)
    (s : List Nat) (n b1 b2 : Nat)
    (hs : s = shuffle (df.map Prod.fst)) (hn : n = s.length)
    (h0t : 0 ≤ tr) (h0e : 0 ≤ te) (h0v : 0 ≤ va) (hsum : tr + te + va ≤ 1)
    (hb1 : (b1 : Int) = ⌊(n : ℚ) * tr⌋) (hb2 : (b2 : Int) = ⌊(n : ℚ) * (tr + te)⌋) :
    datasplit df shuffle tr te va =
      Except.ok (loc df (s.take b1), loc df ((s.take b2).drop b1), loc df (s.drop b2)) := by
  subst hn
  subst hs
  have htr1 : tr ≤ 1 := by linarith
  have hte1 : tr + te ≤ 1 := by linarith
  have h0te : 0 ≤ tr + te := by linarith
  have hcast : (0 : ℚ) ≤ ((shuffle (df.map Prod.fst)).length : ℚ) := Nat.cast_nonneg _
  have e1 : sliceIdx (shuffle (df.map Prod.fst)).length
      (pyInt (((shuffle (df.map Prod.fst)).length : ℚ) * tr)) = b1 :=
    sliceIdx_pyInt_floor _ _ (mul_nonneg hcast h0t)
      (by simpa using mul_le_of_le_one_right hcast htr1) b1 hb1
  have e2 : sliceIdx (shuffle (df.map Prod.fst)).length
      (pyInt (((shuffle (df.map Prod.fst)).length : ℚ) * (tr + te))) = b2 :=
    sliceIdx_pyInt_floor _ _ (mul_nonneg hcast h0te)
      (by simpa using mul_le_of_le_one_right hcast hte1) b2 hb2
  simp only [datasplit]
  rw [if_neg (not_lt.mpr hsum), e1, e2]

/-- C3: for every dataset and valid sizes triple, `datasplit` cuts the
shuffled index sequence `s` of length `n` at the boundaries
`b1 = floor(n * train)` and `b2 = floor(n * (train + test))`, producing the
index ranges `[0, b1)` for train, `[b1, b2)` for test and `[b2, n)` for
validation, each resolved to rows with `loc`. -/
theorem C3_datasplit_boundaries {α : Type} (df : List (Nat × α))
    (shuffle : List Nat → List Nat) (tr te va : ℚ)
    (s : List Nat) (n b1 b2 : Nat)
    (hs : s = shuffle (df.map Prod.fst)) (hn : n = s.length)
    (h0t : 0 ≤ tr) (h0e : 0 ≤ te) (h0v : 0 ≤ va) (hsum : tr + te + va ≤ 1)
    (hb1 : (b1 : Int) = ⌊(n : ℚ) * tr⌋) (hb2 : (b2 : Int) = ⌊(n : ℚ) * (tr + te)⌋) :
    datasplit df shuffle tr te va =
      Except.ok (loc df (s.take b1), loc df ((s.take b2).drop b1), loc df (s.drop b2)) :=
  datasplit_take_drop df shuffle tr te va s n b1 b2 hs hn h0t h0e h0v hsum hb1 hb2

/-- Witness for C3 at the concrete instance of the spec: 100 rows with the
identity shuffle and sizes `(0.7, 0.15, 0.15)` give boundaries 70 and 85 and
splits of exactly 70, 15 and 15 rows. -/
theorem C3_witness :
    datasplit df100 id (7/10) (3/20) (3/20) =
      Except.ok (loc df100 ((df100.map Prod.fst).take 70),
                 loc df100 (((df100.map Prod.fst).take 85).drop 70),
                 loc df100 ((df100.map Prod.fst).drop 85)) ∧
    (loc df100 ((df100.map Prod.fst).take 70)).length = 70 ∧
    (loc df100 (((df100.map Prod.fst).take 85).drop 70)).length = 15 ∧
    (loc df100 ((df100.map Prod.fst).drop 85)).length = 15 := by
  refine ⟨?_, by decide, by decide, by decide⟩
  exact C3_datasplit_boundaries df100 id (7/10) (3/20) (3/20)
    (df100.map Prod.fst) 100 70 85 rfl (by decide)
    (by norm_num) (by norm_num) (by norm_num) (by norm_num)
    (by norm_num) (by norm_num)

/-- C8 counterexample: the randomness source of the splitter is not
injectable: `datasplit` in the source takes no rng parameter and reads the
module-global numpy generator, so the split outcome depends on that hidden
global state and not on the call arguments alone. Concretely, two runs on the
same four-row dataset with the same sizes but with the global generator in
two different states (seeds 0 and 1) return different split assignments. -/
theorem C8_counterexample :
    datasplitSeeded 0 ([((0 : Nat), (10 : Nat)), (1, 11), (2, 12), (3, 13)]) (1/2) (1/4) (1/4)
      ≠ datasplitSeeded 1 ([((0 : Nat), (10 : Nat)), (1, 11), (2, 12), (3, 13)])
          (1/2) (1/4) (1/4) := by
  have e0 := datasplit_take_drop
    ([((0 : Nat), (10 : Nat)), (1, 11), (2, 12), (3, 13)]) (seededShuffle 0) (1/2) (1/4) (1/4)
    (seededShuffle 0 (([((0 : Nat), (10 : Nat)), (1, 11), (2, 12), (3, 13)]).map Prod.fst))
    4 2 3 rfl (by decide) (by norm_num) (by norm_num) (by norm_num) (by norm_num)
    (by norm_num) (by norm_num)
  have e1 := datasplit_take_drop
    ([((0 : Nat), (10 : Nat)), (1, 11), (2, 12), (3, 13)]) (seededShuffle 1) (1/2) (1/4) (1/4)
    (seededShuffle 1 (([((0 : Nat), (10 : Nat)), (1, 11), (2, 12), (3, 13)]).map Prod.fst))
    4 2 3 rfl (by decide) (by norm_num) (by norm_num) (by norm_num) (by norm_num)
    (by norm_num) (by norm_num)
  unfold datasplitSeeded
  rw [e0, e1]
  decide

theorem loc_map_fst {α : Type} (df : List (Nat × α)) :
    ∀ l : List Nat, (∀ i ∈ l, i ∈ df.map Prod.fst) → (loc df l).map Prod.fst = l := by
  intro l
  induction l with
  | nil => intro _; rfl
  | cons i l ih =>
      intro h
      have hi : i ∈ df.map Prod.fst := h i (List.mem_cons_self i l)
      obtain ⟨p, hp, hpi⟩ := List.mem_map.mp hi
      have hsome : (df.find? (fun p => p.1 == i)).isSome :=
        List.find?_isSome.mpr ⟨p, hp, by simp [hpi]⟩
      obtain ⟨q, hq⟩ := Option.isSome_iff_exists.mp hsome
      have hqi : q.1 = i := by
        have := List.find?_some hq
        simpa using this
      have hloc : loc df (i :: l) = q :: loc df l := by
        simp [loc, List.filterMap_cons, hq]
      rw [hloc, List.map_cons, hqi, ih (fun j hj => h j (List.mem_cons_of_mem _ hj))]

theorem take_drop_partition {β : Type} (s : List β) (b1 b2 : Nat)
    (hb : b1 ≤ b2) (hnd : s.Nodup) :
    List.Disjoint (s.take b1) ((s.take b2).drop b1) ∧
    List.Disjoint (s.take b1) (s.drop b2) ∧
    List.Disjoint ((s.take b2).drop b1) (s.drop b2) ∧
    ∀ i, (i ∈ s.take b1 ∨ i ∈ (s.take b2).drop b1 ∨ i ∈ s.drop b2) ↔ i ∈ s := by
  have h1 : (s.take b2).take b1 = s.take b1 := by
    rw [List.take_take, Nat.min_eq_left hb]
  have hcat : s.take b1 ++ ((s.take b2).drop b1 ++ s.drop b2) = s := by
    rw [← List.append_assoc, ← h1, List.take_append_drop, List.take_append_drop]
  have hnd2 : (s.take b1 ++ ((s.take b2).drop b1 ++ s.drop b2)).Nodup := by
    rw [hcat]
    exact hnd
  rw [List.nodup_append] at hnd2
  obtain ⟨-, hnd3, hdisj1⟩ := hnd2
  rw [List.nodup_append] at hnd3
  obtain ⟨-, -, hdisj2⟩ := hnd3
  rw [List.disjoint_append_right] at hdisj1
  refine ⟨hdisj1.1, hdisj1.2, hdisj2, ?_⟩
  intro i
  conv_rhs => rw [← hcat]
  simp [List.mem_append, or_assoc]

theorem datasplit_eq_ok {α : Type} (df : List (Nat × α))
    (shuffle : List Nat → List Nat) (tr te va : ℚ)
    (h0t : 0 ≤ tr) (h0e : 0 ≤ te) (hsum : ¬ tr + te + va > 1) :
    ∃ b1 b2 : Nat, b1 ≤ b2 ∧
      datasplit df shuffle tr te va =
        Except.ok (loc df ((shuffle (df.map Prod.fst)).take b1),
                   loc df (((shuffle (df.map Prod.fst)).take b2).drop b1),
                   loc df ((shuffle (df.map Prod.fst)).drop b2)) := by
  have hq1 : (0 : ℚ) ≤ ((shuffle (df.map Prod.fst)).length : ℚ) * tr :=
    mul_nonneg (Nat.cast_nonneg _) h0t
  have hq2 : (0 : ℚ) ≤ ((shuffle (df.map Prod.fst)).length : ℚ) * (tr + te) :=
    mul_nonneg (Nat.cast_nonneg _) (by linarith)
  have hfl : ⌊((shuffle (df.map Prod.fst)).length : ℚ) * tr⌋
      ≤ ⌊((shuffle (df.map Prod.fst)).length : ℚ) * (tr + te)⌋ :=
    Int.floor_le_floor (mul_le_mul_of_nonneg_left (by linarith) (Nat.cast_nonneg _))
  refine ⟨sliceIdx (shuffle (df.map Prod.fst)).length
      (pyInt (((shuffle (df.map Prod.fst)).length : ℚ) * tr)),
    sliceIdx (shuffle (df.map Prod.fst)).length
      (pyInt (((shuffle (df.map Prod.fst)).length : ℚ) * (tr + te))), ?_, ?_⟩
  · unfold sliceIdx pyInt
    rw [if_pos hq1, if_pos hq2]
    simp only [ratFloor_eq_floor]
    rw [if_neg (not_lt.mpr (Int.floor_nonneg.mpr hq1)),
      if_neg (not_lt.mpr (Int.floor_nonneg.mpr hq2))]
    exact min_le_min (Int.toNat_le_toNat hfl) le_rfl
  · simp only [datasplit]
    rw [if_neg hsum]

/-- C1: for every dataset with no duplicate index, every shuffle that
permutes the index array, and every nonnegative sizes triple with sum at most
1, `datasplit` succeeds and the index sets of the three returned datasets are
pairwise disjoint while their union is the index set of the input: no row is
lost and no row appears in more than one split. -/
theorem C1_datasplit_partition {α : Type} (df : List (Nat × α))
    (shuffle : List Nat → List Nat) (tr te va : ℚ)
    (hsh : List.Perm (shuffle (df.map Prod.fst)) (df.map Prod.fst))
    (hnd : (df.map Prod.fst).Nodup)
    (h0t : 0 ≤ tr) (h0e : 0 ≤ te) (h0v : 0 ≤ va) (hsum : tr + te + va ≤ 1) :
    ∃ t e v, datasplit df shuffle tr te va = Except.ok (t, e, v) ∧
      List.Disjoint (t.map Prod.fst) (e.map Prod.fst) ∧
      List.Disjoint (t.map Prod.fst) (v.map Prod.fst) ∧
      List.Disjoint (e.map Prod.fst) (v.map Prod.fst) ∧
      ∀ i : Nat, (i ∈ t.map Prod.fst ∨ i ∈ e.map Prod.fst ∨ i ∈ v.map Prod.fst)
        ↔ i ∈ df.map Prod.fst := by
  obtain ⟨b1, b2, hb, hok⟩ := datasplit_eq_ok df shuffle tr te va h0t h0e (not_lt.mpr hsum)
  have hndS : (shuffle (df.map Prod.fst)).Nodup := (hsh.nodup_iff).mpr hnd
  obtain ⟨hd1, hd2, hd3, hcov⟩ :=
    take_drop_partition (shuffle (df.map Prod.fst)) b1 b2 hb hndS
  have hsub : ∀ i : Nat, i ∈ shuffle (df.map Prod.fst) → i ∈ df.map Prod.fst :=
    fun i hi => hsh.mem_iff.mp hi
  have m1 : (loc df ((shuffle (df.map Prod.fst)).take b1)).map Prod.fst
      = (shuffle (df.map Prod.fst)).take b1 :=
    loc_map_fst df _ (fun i hi => hsub i (List.take_subset _ _ hi))
  have m2 : (loc df (((shuffle (df.map Prod.fst)).take b2).drop b1)).map Prod.fst
      = ((shuffle (df.map Prod.fst)).take b2).drop b1 :=
    loc_map_fst df _
      (fun i hi => hsub i (List.take_subset _ _ (List.drop_subset _ _ hi)))
  have m3 : (loc df ((shuffle (df.map Prod.fst)).drop b2)).map Prod.fst
      = (shuffle (df.map Prod.fst)).drop b2 :=
    loc_map_fst df _ (fun i hi => hsub i (List.drop_subset _ _ hi))
  refine ⟨_, _, _, hok, ?_, ?_, ?_, ?_⟩
  · rw [m1, m2]
    exact hd1
  · rw [m1, m3]
    exact hd2
  · rw [m2, m3]
    exact hd3
  · intro i
    rw [m1, m2, m3]
    exact (hcov i).trans hsh.mem_iff

/-- Witness for C1: a four-row dataset split by the reversing shuffle with
sizes one half, one quarter, one quarter. -/
theorem C1_witness :
    ∃ t e v, datasplit ([((0 : Nat), (10 : Nat)), (1, 11), (2, 12), (3, 13)])
        List.reverse (1/2) (1/4) (1/4) = Except.ok (t, e, v) ∧
      List.Disjoint (t.map Prod.fst) (e.map Prod.fst) ∧
      List.Disjoint (t.map Prod.fst) (v.map Prod.fst) ∧
      List.Disjoint (e.map Prod.fst) (v.map Prod.fst) ∧
      ∀ i : Nat, (i ∈ t.map Prod.fst ∨ i ∈ e.map Prod.fst ∨ i ∈ v.map Prod.fst)
        ↔ i ∈ (([((0 : Nat), (10 : Nat)), (1, 11), (2, 12), (3, 13)]).map Prod.fst) :=
  C1_datasplit_partition _ List.reverse (1/2) (1/4) (1/4)
    (List.reverse_perm _) (by decide)
    (by norm_num) (by norm_num) (by norm_num) (by norm_num)

theorem toNat_ofNat_valid (m : Nat) (h : m < 55296) : (Char.ofNat m).toNat = m := by
  rw [Char.ofNat, dif_pos (Or.inl h)]
  rfl

theorem pyLower_ne_mojibake (c : Char) : pyLower c ≠ 'Â' := by
  unfold pyLower
  simp only []
  split
  · rename_i h
    intro hEq
    have hv : (Char.ofNat (c.toNat + 32)).toNat = c.toNat + 32 :=
      toNat_ofNat_valid _ (by omega)
    rw [hEq] at hv
    have h194 : ('Â').toNat = 194 := by decide
    omega
  · rename_i h
    intro hEq
    apply h
    have : c.toNat = 194 := by
      rw [hEq]
      decide
    omega

theorem mem_pyStrip {c : Char} {s : List Char} (h : c ∈ pyStrip s) : c ∈ s := by
  unfold pyStrip at h
  rw [List.mem_reverse] at h
  have h1 : c ∈ (s.dropWhile pyWspace).reverse := List.dropWhile_subset _ h
  rw [List.mem_reverse] at h1
  exact List.dropWhile_subset _ h1

theorem mem_subRunsGo (p : Char → Bool) (rep : List Char) :
    ∀ (s : List Char) (b : Bool) (c : Char),
      c ∈ subRunsGo p rep b s → c ∈ rep ∨ c ∈ s := by
  intro s
  induction s with
  | nil =>
      intro b c hc
      simp [subRunsGo] at hc
  | cons a as ih =>
      intro b c hc
      by_cases hp : p a = true
      · rw [show subRunsGo p rep b (a :: as)
            = (if b then [] else rep) ++ subRunsGo p rep true as by
            simp [subRunsGo, hp]] at hc
        rcases List.mem_append.mp hc with h | h
        · cases b with
          | true => simp at h
          | false => exact Or.inl (by simpa using h)
        · rcases ih true c h with h2 | h2
          · exact Or.inl h2
          · exact Or.inr (List.mem_cons_of_mem _ h2)
      · rw [show subRunsGo p rep b (a :: as) = a :: subRunsGo p rep false as by
            simp [subRunsGo, hp]] at hc
        rcases List.mem_cons.mp hc with h | h
        · exact Or.inr (h ▸ List.mem_cons_self a as)
        · rcases ih false c h with h2 | h2
          · exact Or.inl h2
          · exact Or.inr (List.mem_cons_of_mem _ h2)

theorem mem_collapseGo :
    ∀ (fuel : Nat) (s : List Char) (c : Char),
      c ∈ collapseGo fuel s → c ∈ (['N', 'U', 'M'] : List Char) ∨ c ∈ s := by
  intro fuel s
  induction fuel, s using collapseGo.induct with
  | case1 s =>
      intro c hc
      exact Or.inr hc
  | case2 fuel =>
      intro c hc
      simp [collapseGo] at hc
  | case3 fuel cc rest hsep ih =>
      intro c hc
      rw [show collapseGo (fuel + 1) ('N' :: 'U' :: 'M' :: cc :: 'N' :: 'U' :: 'M' :: rest)
          = 'N' :: 'U' :: 'M' :: collapseGo fuel rest by simp [collapseGo, hsep]] at hc
      simp only [List.mem_cons] at hc
      rcases hc with h | h | h | h
      · exact Or.inl (by simp [h])
      · exact Or.inl (by simp [h])
      · exact Or.inl (by simp [h])
      · rcases ih c h with h2 | h2
        · exact Or.inl h2
        · refine Or.inr ?_
          simp only [List.mem_cons]
          exact Or.inr (Or.inr (Or.inr (Or.inr (Or.inr (Or.inr (Or.inr h2))))))
  | case4 fuel cc rest hsep ih =>
      intro c hc
      rw [show collapseGo (fuel + 1) ('N' :: 'U' :: 'M' :: cc :: 'N' :: 'U' :: 'M' :: rest)
          = 'N' :: collapseGo fuel ('U' :: 'M' :: cc :: 'N' :: 'U' :: 'M' :: rest) by
          simp [collapseGo, hsep]] at hc
      simp only [List.mem_cons] at hc
      rcases hc with h | h
      · exact Or.inl (by simp [h])
      · rcases ih c h with h2 | h2
        · exact Or.inl h2
        · refine Or.inr ?_
          simp only [List.mem_cons] at h2 ⊢
          tauto
  | case5 fuel c0 rest hpat ih =>
      intro c hc
      rw [show collapseGo (fuel + 1) (c0 :: rest) = c0 :: collapseGo fuel rest by
          simp [collapseGo]] at hc
      simp only [List.mem_cons] at hc
      rcases hc with h | h
      · exact Or.inr (by simp [h])
      · rcases ih c h with h2 | h2
        · exact Or.inl h2
        · exact Or.inr (List.mem_cons_of_mem _ h2)

theorem spacePunct_congr {s : List Char} (h : 'Â' ∉ s) :
    spacePunct puncB2W s = spacePunct puncExpt s := by
  unfold spacePunct
  have hmap : ∀ c ∈ s, (fun c => if puncB2W c then [' ', c, ' '] else [c]) c
      = (fun c => if puncExpt c then [' ', c, ' '] else [c]) c := by
    intro c hc
    have hca : ¬(c = 'Â') := fun e => h (e ▸ hc)
    have hcls : puncB2W c = puncExpt c := by
      simp [puncB2W, puncExpt, hca]
    simp only [hcls]
  rw [List.map_congr_left hmap]

theorem normalize_text_eq (s : List Char) :
    cls_dataprep_text s = text_tranformation_text s := by
  unfold cls_dataprep_text text_tranformation_text normalizeWith
  have hA : 'Â' ∉ collapseNumSep (subRuns Char.isDigit numTok (pyStrip (s.map pyLower))) := by
    intro hmem
    unfold collapseNumSep at hmem
    rcases mem_collapseGo _ _ _ hmem with h | h
    · exact absurd h (by decide)
    · unfold subRuns at h
      rcases mem_subRunsGo _ _ _ _ _ h with h2 | h2
      · exact absurd h2 (by decide)
      · have h3 := mem_pyStrip h2
        obtain ⟨c, hc, hcl⟩ := List.mem_map.mp h3
        exact pyLower_ne_mojibake c hcl
  rw [spacePunct_congr hA]

/-- C10: the two normalization implementations of the repository are
equivalent: for every dataframe whose text column holds strings,
`cls_dataprep` with the drop flag set and `text_tranformation` produce the
same output dataframe. The sources differ only in the punctuation class (the
b2w class additionally contains the mojibake character), and lowercasing runs
first, after which that character can no longer occur. -/
theorem C10_dataprep_equiv (df : List Row) :
    cls_dataprep true df = text_tranformation df := by
  unfold cls_dataprep text_tranformation
  simp only [if_true]
  apply List.map_congr_left
  intro r _
  rw [normalize_text_eq]

end Bertology
